import Mathlib

/-!
Shallow embedding of the autoyt collection/scheduling core.

Conventions used throughout:
* Go machine integers that only ever hold small non-negative counts are
  modelled as `Nat`.
* `time.Time` instants are modelled as `Nat` seconds; `t1.After(t2)` is
  strict `t2 < t1`; the zero `time.Time{}` value is modelled as `0`.
* Go maps are modelled as association lists with insert-or-replace
  semantics, so `len` is the list length and lookup is the first match.
* Functions that call `userError` (which prints and exits the process)
  are modelled as returning an error value; since the Go process exits
  before persisting anything, no state escapes on that path.
* Go runtime panics (out-of-range index, nil dereference, failed type
  assertion) are modelled by an explicit `panic`-style constructor in
  the result type of the function concerned.
-/

namespace Autoyt

/-! Entity states, from the `const` block: Buffered, Scheduled,
Published, Removed as consecutive integers. -/

abbrev ItemState := Nat

def Buffered : ItemState := 0
def Scheduled : ItemState := 1
def Published : ItemState := 2
def Removed : ItemState := 3

/-- Go `strings.ToLower`, restricted to the per-character lowering that
is all the repository relies on (artist names). -/
def strToLower (s : String) : String :=
  String.mk (s.data.map Char.toLower)

structure Track where
  Title : String
  By : String
  Artists : List String
  Description : String
  Path : String
  State : ItemState
deriving DecidableEq

structure Artwork where
  Artist : String
  Path : String
  State : ItemState
deriving DecidableEq

structure Video where
  Title : String
  Description : String
  Path : String
  State : ItemState
  PublishAt : Option Nat
  UploadId : Option String
  Audio : String
  Image : String
deriving DecidableEq

structure Artist where
  Name : String
  Links : List String
deriving DecidableEq

def Track.UniqueId (t : Track) : String := t.Path

def Artwork.UniqueId (a : Artwork) : String := a.Path

def Artist.UniqueId (a : Artist) : String := strToLower a.Name

def Video.UniqueId (v : Video) : String := v.Path

/-- The heterogeneous `Collection` interface value stored in the index
map, as a tagged sum over the four entity kinds. -/
inductive Entity where
  | track (t : Track)
  | artwork (a : Artwork)
  | video (v : Video)
  | artist (a : Artist)
deriving DecidableEq

def Entity.UniqueId : Entity → String
  | .track t => t.UniqueId
  | .artwork a => a.UniqueId
  | .video v => v.UniqueId
  | .artist a => a.UniqueId

/-- Association-list model of the Go `map[string]Collection`: insert
replaces the binding when the key is present and appends otherwise, so
distinct keys stay distinct and the list length models `len(map)`. -/
def mapInsert (m : List (String × Entity)) (k : String) (v : Entity) :
    List (String × Entity) :=
  if m.any (fun p => p.1 == k) then
    m.map (fun p => if p.1 = k then (k, v) else p)
  else
    m ++ [(k, v)]

/-- Lookup in the association-list map model. -/
def mapFind (m : List (String × Entity)) (k : String) : Option Entity :=
  match m with
  | [] => none
  | p :: rest => if p.1 = k then some p.2 else mapFind rest k

structure Collections where
  Tracks : List Track
  Artwork : List Artwork
  Schedule : List Video
  Artists : List Artist
  Indexes : List (String × Entity)
deriving DecidableEq

/-- `Collections.UpdateIndexes`: inserts every entity of the four
backing collections into the index keyed by its unique id.  Note that,
like the source, it does not clear the map first. -/
def UpdateIndexes (c : Collections) : Collections :=
  let m := c.Tracks.foldl (fun m t => mapInsert m t.UniqueId (.track t)) c.Indexes
  let m := c.Artwork.foldl (fun m a => mapInsert m a.UniqueId (.artwork a)) m
  let m := c.Schedule.foldl (fun m v => mapInsert m v.UniqueId (.video v)) m
  let m := c.Artists.foldl (fun m a => mapInsert m a.UniqueId (.artist a)) m
  { c with Indexes := m }

/-- The aggregate size `len(Artists)+len(Artwork)+len(Tracks)+len(Schedule)`
that `Find` compares against the index size. -/
def collectionsSum (c : Collections) : Nat :=
  c.Artists.length + c.Artwork.length + c.Tracks.length + c.Schedule.length

/-- `Collections.Find`: rebuilds the index when the aggregate collection
size disagrees with the index size, then looks the id up.  The receiver
is mutated through a pointer in Go, so the (possibly rebuilt) state is
returned alongside the lookup result. -/
def Find (c : Collections) (id : String) : Collections × Option Entity :=
  let c := if collectionsSum c ≠ c.Indexes.length then UpdateIndexes c else c
  (c, mapFind c.Indexes id)

/-! Insertion (`add.go` half of `part_001`). -/

def Err_ImmutableResource (s : String) : String :=
  "Cannot update " ++ s ++ " as it is already schedule or published."

/-- `updateArtists`: for each artist identifier, look it up (lowercased)
with `Find`; when found the Go code executes `return` — leaving the
whole function, not just this iteration — otherwise it appends a fresh
`Artist` with no links and continues. -/
def updateArtists (c : Collections) : List String → Collections
  | [] => c
  | artist :: rest =>
    let fr := Find c (strToLower artist)
    if (fr.2).isSome then fr.1
    else updateArtists { fr.1 with Artists := fr.1.Artists ++ [⟨artist, []⟩] } rest

/-- The scan-replace-or-append loop of `AddTrack`: the first entity with
the new entity's unique id is replaced in place unless its state both
differs from the new state and is not Removed, in which case the
operation fails; with no match the new entity is appended at the end. -/
def addTrackLoop (track : Track) : List Track → Except String (List Track)
  | [] => .ok [track]
  | t :: rest =>
    if t.UniqueId = track.UniqueId then
      if t.State ≠ track.State ∧ t.State ≠ Removed then
        .error (Err_ImmutableResource "music")
      else
        .ok (track :: rest)
    else
      (addTrackLoop track rest).map (fun l => t :: l)

/-- `AddTrack`: updates the artist collection from `track.Artists`, then
runs the replace-or-append scan over `c.Tracks`. -/
def AddTrack (c : Collections) (track : Track) : Except String Collections :=
  let c := updateArtists c track.Artists
  (addTrackLoop track c.Tracks).map (fun l => { c with Tracks := l })

/-- The scan-replace-or-append loop of `AddArtwork` (same shape as the
track loop, over the artwork collection). -/
def addArtworkLoop (artwork : Artwork) : List Artwork → Except String (List Artwork)
  | [] => .ok [artwork]
  | a :: rest =>
    if a.UniqueId = artwork.UniqueId then
      if a.State ≠ artwork.State ∧ a.State ≠ Removed then
        .error (Err_ImmutableResource "art")
      else
        .ok (artwork :: rest)
    else
      (addArtworkLoop artwork rest).map (fun l => a :: l)

/-- `AddArtwork`: updates the artist collection from the single artist
identifier, then runs the replace-or-append scan over `c.Artwork`. -/
def AddArtwork (c : Collections) (artwork : Artwork) : Except String Collections :=
  let c := updateArtists c [artwork.Artist]
  (addArtworkLoop artwork c.Artwork).map (fun l => { c with Artwork := l })

/-! Undo branch of `AddCommand.Exec` for the `music` and `art`
collections.  The Go code indexes `c.Tracks[len(c.Tracks)-1]` without an
emptiness check (index `-1` panics on an empty collection), exits with
the immutable-resource user error when the last entity is not Buffered,
and otherwise truncates the last element off the collection. -/

inductive UndoOut where
  | ok (c : Collections)
  | err (e : String)
  | panicked
deriving DecidableEq

def addUndoMusic (c : Collections) : UndoOut :=
  match c.Tracks.getLast? with
  | none => .panicked
  | some track =>
    if track.State ≠ Buffered then .err (Err_ImmutableResource "music")
    else .ok { c with Tracks := c.Tracks.dropLast }

def addUndoArt (c : Collections) : UndoOut :=
  match c.Artwork.getLast? with
  | none => .panicked
  | some art =>
    if art.State ≠ Buffered then .err (Err_ImmutableResource "art")
    else .ok { c with Artwork := c.Artwork.dropLast }

/-! Pairing (`NewSchedule`, schedule.go). -/

def Err_NoBufferedTrack : String := "No new music to schedule."
def Err_NoBufferedArtwork : String := "No new artwork to schedule."

structure Schedule where
  Tracks : List Track
  Artwork : List Artwork
  Count : Nat
deriving DecidableEq

/-- The backward scan `for i := len(c.Tracks)-1; i >= 0; i--` collecting
Buffered tracks: the element seen first is the last of the collection,
so the result is the reverse-order filtration of the collection. -/
def bufferedRevTracks : List Track → List Track
  | [] => []
  | t :: rest =>
    bufferedRevTracks rest ++ if t.State = Buffered then [t] else []

/-- The same backward Buffered scan over the artwork collection. -/
def bufferedRevArtwork : List Artwork → List Artwork
  | [] => []
  | a :: rest =>
    bufferedRevArtwork rest ++ if a.State = Buffered then [a] else []

/-- `NewSchedule`: collects Buffered tracks and artwork newest-first,
fails when either is empty, and truncates both lists to the smaller
length (`math.Min` over lengths, exact for these sizes). -/
def NewSchedule (c : Collections) : Except String Schedule :=
  let tracks := bufferedRevTracks c.Tracks
  if tracks.length = 0 then .error Err_NoBufferedTrack
  else
    let artwork := bufferedRevArtwork c.Artwork
    if artwork.length = 0 then .error Err_NoBufferedArtwork
    else
      let count := min tracks.length artwork.length
      .ok ⟨tracks.take count, artwork.take count, count⟩

/-! `latestScheduledTime` (schedule.go). -/

/-- Go `t.After(latest)`, strict comparison of instants. -/
def timeAfter (t latest : Nat) : Bool := latest < t

/-- The loop `for i := count - 1; i >= 1; i--` of `latestScheduledTime`,
folding over the index sequence it visits.  Dereferencing a nil
`PublishAt` (`video.PublishAt.After`) and indexing out of range are Go
panics, modelled as `none`. -/
def latestLoop (schedule : List Video) : List Nat → Nat → Option Nat
  | [], latest => some latest
  | i :: rest, latest =>
    match schedule.get? i with
    | none => none
    | some video =>
      match video.PublishAt with
      | none => none
      | some t =>
        latestLoop schedule rest (if timeAfter t latest then t else latest)

/-- `latestScheduledTime`: on an empty schedule returns the zero time
and `found = false`; otherwise caps the scan at `count = min 256 len`,
seeds `latest` from `Schedule[0].PublishAt` (falling back to `now` when
that entry has no publish time), and folds the loop over indices
`count-1, ..., 1`.  Outer `none` models a Go panic inside the loop. -/
def latestScheduledTime (c : Collections) (now : Nat) : Option (Nat × Bool) :=
  if c.Schedule.length = 0 then some (0, false)
  else
    let count := if c.Schedule.length < 256 then c.Schedule.length else 256
    let latest :=
      match c.Schedule.head? with
      | some v => match v.PublishAt with
        | some t => t
        | none => now
      | none => now
    (latestLoop c.Schedule ((List.range' 1 (count - 1)).reverse) latest).map
      (fun t => (t, true))

/-! Time-slot computation (`scheduleTime`, `mergeDateTimeUTC`, and the
publish-time assignment of `renderAll`). -/

/-- `mergeDateTimeUTC`: keep the calendar date of `date` and replace the
time of day with `tod`, in UTC; with instants as seconds, the date is
the whole multiple of 86400. -/
def mergeDateTimeUTC (date tod : Nat) : Nat :=
  (date / 86400) * 86400 + tod

/-- `scheduleTime`: advance `start` by `pos * UploadFrequency` days
(`AddDate(0, 0, pos*frequency)`), then overwrite the time of day with
the configured UTC upload time (already parsed to `uploadSec` seconds
past midnight; `time.Parse` failure of the configured string is a
separate user error outside this arithmetic). -/
def scheduleTime (uploadSec freq : Nat) (start : Nat) (pos : Nat) : Nat :=
  mergeDateTimeUTC (start + pos * freq * 86400) uploadSec

/-- The publish-time assignment of `renderAll`:
`if timeSlot.After(now) { vid.PublishAt = &timeSlot } else { vid.PublishAt = &now }`. -/
def assignPublishAt (slot now : Nat) : Nat :=
  if timeAfter slot now then slot else now

/-- The `for i := schedule.Count - 1; i >= 0; i--` loop of `renderAll`,
restricted to the publish times it assigns, in the order the videos are
appended to the schedule.  The argument `i+1` counts the remaining
iterations, so iteration `i` uses `pos = count - i`. -/
def renderTimesFrom (uploadSec freq start now count : Nat) : Nat → List Nat
  | 0 => []
  | n + 1 =>
    assignPublishAt (scheduleTime uploadSec freq start (count - n)) now ::
      renderTimesFrom uploadSec freq start now count n

/-- The publish times assigned across a whole batch of `count` videos in
append order. -/
def renderAllTimes (uploadSec freq start now count : Nat) : List Nat :=
  renderTimesFrom uploadSec freq start now count count

/-! Template substitution (`buildTemplate`, render.go).  The scanner is
embedded over `List Char`; the fuel argument bounds the number of loop
iterations and is initialised to the format length, which suffices
because every iteration consumes at least one character. -/

inductive BTRes where
  | ok (s : List Char)
  | err (e : List Char)
  | panicked
deriving DecidableEq

/-- The message of `fmt.Sprintf("invalid key '%s' in '%s'", key, format)`. -/
def btErrMsg (key fmt : List Char) : List Char :=
  "invalid key '".data ++ key ++ "' in '".data ++ fmt ++ "'".data

/-- Go `strings.IndexByte`, as an optional first index instead of `-1`. -/
def indexByte (ch : Char) : List Char → Option Nat
  | [] => none
  | a :: rest => if a = ch then some 0 else (indexByte ch rest).map (fun n => n + 1)

/-- Lookup `template[key]` in the substitution map. -/
def templateGet : List (List Char × List Char) → List Char → Option (List Char)
  | [], _ => none
  | kv :: rest, k => if kv.1 = k then some kv.2 else templateGet rest k

/-- The scanning loop of `buildTemplate`.  On `'%'` immediately followed
by `'('` it takes the text up to the next `')'` as the key (when no
`')'` follows, `IndexByte` returns `-1` and the Go slice expression
`format[i:end]` with `end = i-1` panics), substitutes a bound key or
fails echoing the key and the whole format, and resumes after the
`')'`; any other character passes through.  `fmt` is the whole format
string used in error messages; the fuel case `0` with input left is
unreachable when the fuel starts at the input length. -/
def btGo (fmt : List Char) (t : List (List Char × List Char)) :
    Nat → List Char → BTRes
  | _, [] => .ok []
  | 0, _ :: _ => .panicked
  | fuel + 1, a :: rest =>
    if a = '%' ∧ rest.head? = some '(' then
      match indexByte ')' rest.tail with
      | none => .panicked
      | some j =>
        match templateGet t (rest.tail.take j) with
        | none => .err (btErrMsg (rest.tail.take j) fmt)
        | some v =>
          match btGo fmt t fuel (rest.tail.drop (j + 1)) with
          | .ok s => .ok (v ++ s)
          | other => other
    else
      match btGo fmt t fuel rest with
      | .ok s => .ok (a :: s)
      | other => other

/-- `buildTemplate` over character lists. -/
def buildTemplate (fmt : List Char) (t : List (List Char × List Char)) : BTRes :=
  btGo fmt t fmt.length fmt

/-- The first key that the `buildTemplate` scanner extracts from the
format and fails to resolve in the substitution map, when the scan
reaches one before completing or panicking.  This mirrors the scanner
and is used to state what "a key present in the template but absent
from the map" means. -/
def btFirstBad (t : List (List Char × List Char)) :
    Nat → List Char → Option (List Char)
  | _, [] => none
  | 0, _ :: _ => none
  | fuel + 1, a :: rest =>
    if a = '%' ∧ rest.head? = some '(' then
      match indexByte ')' rest.tail with
      | none => none
      | some j =>
        match templateGet t (rest.tail.take j) with
        | none => some (rest.tail.take j)
        | some _ => btFirstBad t fuel (rest.tail.drop (j + 1))
    else
      btFirstBad t fuel rest

/-- The first unresolved key of a format under a substitution map. -/
def firstUnresolved (fmt : List Char) (t : List (List Char × List Char)) :
    Option (List Char) :=
  btFirstBad t fmt.length fmt

/-! Description building (render.go): `writeHeader`, `writeLinks`,
`writeTrackCredits`, `writeArtCredits`, `Desc`.  The shared
`strings.Builder` is threaded as a `String`; outcomes distinguish
normal return, an error return, and a Go panic (missing artist or
failed type assertion in `writeLinks`, or a template panic). -/

structure VideoFormat where
  Title : String
  Header : String
  ArtworkCredits : String
  TrackCredits : String
  Link : String
  Footer : String
deriving DecidableEq

inductive WOut where
  | ok
  | err (e : String)
  | panicked
deriving DecidableEq

/-- `buildTemplate` applied to `String` format and map, as used by the
description builder. -/
def buildTemplateS (fmt : String) (t : List (String × String)) : BTRes :=
  buildTemplate fmt.data (t.map (fun p => (p.1.data, p.2.data)))

/-- The `for _, l := range artist.Links` loop body of `writeLinks`: each
link is rendered through the Link template and appended to the builder
with a newline; a template error stops the loop and is returned. -/
def writeLinksLoop (linkFmt : String) (b : String) : List String → String × WOut
  | [] => (b, .ok)
  | l :: rest =>
    match buildTemplateS linkFmt [("link", l)] with
    | .ok link => writeLinksLoop linkFmt (b ++ String.mk link ++ "\n") rest
    | .err e => (b, .err (String.mk e))
    | .panicked => (b, .panicked)

/-- `writeLinks`: finds the (lowercased) artist id with `Find` — a miss
is `panic("artist ... not in collections")`, and so is a non-Artist
entity under that id (failed `col.(*Artist)` assertion) — then renders
one Link-template line per registered link. -/
def writeLinks (fmt : VideoFormat) (c : Collections) (b : String) (id : String) :
    Collections × String × WOut :=
  let fr := Find c (strToLower id)
  match fr.2 with
  | none => (fr.1, b, .panicked)
  | some col =>
    match col with
    | .artist artist =>
      let r := writeLinksLoop fmt.Link b artist.Links
      (fr.1, r.1, r.2)
    | _ => (fr.1, b, .panicked)

/-- `writeHeader`: when the Header template is non-empty, render it over
`by`/`title` and append it with a blank line. -/
def writeHeader (fmt : VideoFormat) (track : Track) (b : String) : String × WOut :=
  if fmt.Header ≠ "" then
    match buildTemplateS fmt.Header [("by", track.By), ("title", track.Title)] with
    | .ok header => (b ++ String.mk header ++ "\n\n", .ok)
    | .err e => (b, .err (String.mk e))
    | .panicked => (b, .panicked)
  else (b, .ok)

/-- The `for _, a := range self.Track.Artists` loop of
`writeTrackCredits`: a TrackCredits line per artist, that artist's link
lines, then a blank line; template and link errors abort the loop. -/
def writeTrackCreditsLoop (fmt : VideoFormat) (c : Collections) (b : String) :
    List String → Collections × String × WOut
  | [] => (c, b, .ok)
  | a :: rest =>
    match buildTemplateS fmt.TrackCredits [("artist", a)] with
    | .err e => (c, b, .err (String.mk e))
    | .panicked => (c, b, .panicked)
    | .ok credits =>
      match writeLinks fmt c (b ++ String.mk credits ++ "\n") a with
      | (c, b, .ok) => writeTrackCreditsLoop fmt c (b ++ "\n") rest
      | (c, b, .err e) => (c, b, .err e)
      | (c, b, .panicked) => (c, b, .panicked)

def writeTrackCredits (fmt : VideoFormat) (track : Track) (c : Collections)
    (b : String) : Collections × String × WOut :=
  writeTrackCreditsLoop fmt c b track.Artists

/-- `writeArtCredits`: renders the ArtworkCredits line, then the artwork
artist's link lines — but the Go code assigns the `writeLinks` error to
`err` and then executes `return nil`, so an error outcome from the link
loop is discarded (a panic still propagates, since a Go panic is not an
error value). -/
def writeArtCredits (fmt : VideoFormat) (art : Artwork) (c : Collections)
    (b : String) : Collections × String × WOut :=
  match buildTemplateS fmt.ArtworkCredits [("artist", art.Artist)] with
  | .err e => (c, b, .err (String.mk e))
  | .panicked => (c, b, .panicked)
  | .ok credits =>
    match writeLinks fmt c (b ++ String.mk credits ++ "\n") art.Artist with
    | (c, b, .panicked) => (c, b, .panicked)
    | (c, b, _) => (c, b, .ok)

inductive DescOut where
  | ok (desc : String)
  | err (e : String)
  | panicked
deriving DecidableEq

/-- `VideoBuilder.Desc`: header, verbatim track description, track
credits, artwork credits, footer, in that order; an error returned by a
section makes `Desc` return `("", err)`. -/
def Desc (fmt : VideoFormat) (track : Track) (art : Artwork) (c : Collections) :
    Collections × DescOut :=
  match writeHeader fmt track "" with
  | (_, .err e) => (c, .err e)
  | (_, .panicked) => (c, .panicked)
  | (b, .ok) =>
    let b := if track.Description ≠ "" then b ++ track.Description ++ "\n\n" else b
    match writeTrackCredits fmt track c b with
    | (c, _, .err e) => (c, .err e)
    | (c, _, .panicked) => (c, .panicked)
    | (c, b, .ok) =>
      match writeArtCredits fmt art c b with
      | (c, _, .err e) => (c, .err e)
      | (c, _, .panicked) => (c, .panicked)
      | (c, b, .ok) =>
        let b := if fmt.Footer ≠ "" then b ++ "\n" ++ fmt.Footer else b
        (c, .ok b)

/-! Concrete fixture for exercising `latestScheduledTime` on a schedule
longer than its 256-entry window: 256 old entries publishing at 100
followed by one newest entry publishing at 1000. -/

def vOld257 : Video := ⟨"o", "", "/v0", Scheduled, some 100, none, "", ""⟩

def vNew257 : Video := ⟨"n", "", "/v256", Scheduled, some 1000, none, "", ""⟩

def cBig257 : Collections :=
  ⟨[], [], List.replicate 256 vOld257 ++ [vNew257], [], []⟩

/-! Supporting lemmas. -/

theorem replicate_get? {α : Type} (a : α) :
    ∀ n i, i < n → (List.replicate n a).get? i = some a := by
  intro n
  induction n with
  | zero => intro i hi; omega
  | succ m ih =>
    intro i hi
    match i with
    | 0 => rfl
    | k + 1 => exact ih k (by omega)

theorem get?_append_left' {α : Type} (l₁ l₂ : List α) :
    ∀ i, i < l₁.length → (l₁ ++ l₂).get? i = l₁.get? i := by
  induction l₁ with
  | nil => intro i hi; simp at hi
  | cons x rest ih =>
    intro i hi
    match i with
    | 0 => rfl
    | k + 1 => exact ih k (by simpa using Nat.lt_of_succ_lt_succ hi)

theorem latestLoop_stable (s : List Video) (latest : Nat) :
    ∀ idxs, (∀ i ∈ idxs, ∃ v, s.get? i = some v ∧
        ∃ t, v.PublishAt = some t ∧ t ≤ latest) →
      latestLoop s idxs latest = some latest := by
  intro idxs
  induction idxs with
  | nil => intro _; rfl
  | cons i rest ih =>
    intro h
    obtain ⟨v, hv, t, ht, hle⟩ := h i (by simp)
    rw [latestLoop]
    simp only [hv, ht]
    have hfalse : timeAfter t latest = false := by
      simp [timeAfter, Nat.not_lt.mpr hle]
    simp only [hfalse, Bool.false_eq_true, if_false]
    exact ih fun j hj => h j (by simp [hj])

theorem bufferedRevTracks_eq (l : List Track) :
    bufferedRevTracks l = (l.filter fun t => t.State = Buffered).reverse := by
  induction l with
  | nil => rfl
  | cons t rest ih =>
    by_cases h : t.State = Buffered <;>
      simp [bufferedRevTracks, List.filter_cons, h, ih]

theorem bufferedRevArtwork_eq (l : List Artwork) :
    bufferedRevArtwork l = (l.filter fun a => a.State = Buffered).reverse := by
  induction l with
  | nil => rfl
  | cons a rest ih =>
    by_cases h : a.State = Buffered <;>
      simp [bufferedRevArtwork, List.filter_cons, h, ih]

theorem renderTimesFrom_length (us f st now count : Nat) :
    ∀ m, (renderTimesFrom us f st now count m).length = m := by
  intro m
  induction m with
  | zero => rfl
  | succ n ih => simp [renderTimesFrom, ih]

theorem renderTimesFrom_get (us f st now count : Nat) :
    ∀ m k, m ≤ count → k < m →
      (renderTimesFrom us f st now count m).get? k =
        some (assignPublishAt (scheduleTime us f st (count - m + 1 + k)) now) := by
  intro m
  induction m with
  | zero => intro k _ hk; omega
  | succ n ih =>
    intro k hm hk
    match k with
    | 0 =>
      have : count - (n + 1) + 1 + 0 = count - n := by omega
      simp [renderTimesFrom, this]
    | k' + 1 =>
      have h1 : (renderTimesFrom us f st now count (n + 1)).get? (k' + 1) =
          (renderTimesFrom us f st now count n).get? k' := rfl
      rw [h1, ih k' (by omega) (by omega)]
      have : count - n + 1 + k' = count - (n + 1) + 1 + (k' + 1) := by omega
      rw [this]

/-- C10: With path argument `undo`, the add command for `music` on an
empty Tracks collection (and for `art` on an empty Artwork collection)
indexes slot `len-1 = -1` of the backing slice and panics instead of
reporting a user error; on a non-empty collection it pops the last
element exactly when that element's state is Buffered, and otherwise
fails with the immutable-resource error (the `userError` exit leaves
the collection unchanged). -/
theorem c10_add_undo (c : Collections) :
    (c.Tracks = [] → addUndoMusic c = .panicked) ∧
    (c.Artwork = [] → addUndoArt c = .panicked) ∧
    (∀ ts t, c.Tracks = ts ++ [t] →
      (t.State = Buffered → addUndoMusic c = .ok { c with Tracks := ts }) ∧
      (t.State ≠ Buffered →
        addUndoMusic c = .err (Err_ImmutableResource "music"))) ∧
    (∀ as a, c.Artwork = as ++ [a] →
      (a.State = Buffered → addUndoArt c = .ok { c with Artwork := as }) ∧
      (a.State ≠ Buffered →
        addUndoArt c = .err (Err_ImmutableResource "art"))) := by
  refine ⟨fun h => by simp [addUndoMusic, h],
    fun h => by simp [addUndoArt, h],
    fun ts t h => ⟨fun hs => ?_, fun hs => ?_⟩,
    fun as a h => ⟨fun hs => ?_, fun hs => ?_⟩⟩ <;>
    simp [addUndoMusic, addUndoArt, h, hs, List.getLast?_concat,
      List.dropLast_concat]

/-- Witness for C10 at concrete states: empty collections panic, a
single Buffered track pops, a single Scheduled artwork is refused. -/
theorem c10_add_undo_witness :
    addUndoMusic ⟨[], [], [], [], []⟩ = .panicked ∧
    addUndoMusic ⟨[⟨"t", "b", [], "", "/t", Buffered⟩], [], [], [], []⟩ =
      .ok ⟨[], [], [], [], []⟩ ∧
    addUndoArt ⟨[], [⟨"a", "/a", Scheduled⟩], [], [], []⟩ =
      .err (Err_ImmutableResource "art") := by
  refine ⟨(c10_add_undo ⟨[], [], [], [], []⟩).1 rfl, ?_, ?_⟩
  · exact ((c10_add_undo ⟨[⟨"t", "b", [], "", "/t", Buffered⟩], [], [], [],
      []⟩).2.2.1 [] ⟨"t", "b", [], "", "/t", Buffered⟩ rfl).1 rfl
  · exact ((c10_add_undo ⟨[], [⟨"a", "/a", Scheduled⟩], [], [],
      []⟩).2.2.2 [] ⟨"a", "/a", Scheduled⟩ rfl).2 (by decide)

/-- C5: `NewSchedule` fails with the no-buffered-track error when no
track is Buffered, fails with the no-buffered-artwork error when some
track but no artwork is Buffered, and otherwise returns exactly
`min N M` pairs, both lists being the most-recently-added Buffered
entities in reverse collection order; every returned entity is an
unmodified Buffered member of the original collection, and the function
performs no state writes at all (it only reads `c`). -/
theorem c5_NewSchedule (c : Collections) :
    ((c.Tracks.filter fun t => t.State = Buffered) = [] →
      NewSchedule c = .error Err_NoBufferedTrack) ∧
    ((c.Tracks.filter fun t => t.State = Buffered) ≠ [] →
      (c.Artwork.filter fun a => a.State = Buffered) = [] →
      NewSchedule c = .error Err_NoBufferedArtwork) ∧
    (∀ N M, N = (c.Tracks.filter fun t => t.State = Buffered).length →
      M = (c.Artwork.filter fun a => a.State = Buffered).length →
      N ≠ 0 → M ≠ 0 →
      NewSchedule c = .ok
        ⟨((c.Tracks.filter fun t => t.State = Buffered).reverse).take (min N M),
         ((c.Artwork.filter fun a => a.State = Buffered).reverse).take (min N M),
         min N M⟩ ∧
      (((c.Tracks.filter fun t => t.State = Buffered).reverse).take
          (min N M)).length = min N M ∧
      (((c.Artwork.filter fun a => a.State = Buffered).reverse).take
          (min N M)).length = min N M ∧
      (∀ t ∈ ((c.Tracks.filter fun t => t.State = Buffered).reverse).take
          (min N M), t.State = Buffered ∧ t ∈ c.Tracks) ∧
      (∀ a ∈ ((c.Artwork.filter fun a => a.State = Buffered).reverse).take
          (min N M), a.State = Buffered ∧ a ∈ c.Artwork)) := by
  refine ⟨fun h => ?_, fun h h' => ?_, fun N M hN hM hN0 hM0 => ?_⟩
  · simp [NewSchedule, bufferedRevTracks_eq, h]
  · have hlen : (c.Tracks.filter fun t => t.State = Buffered).length ≠ 0 := by
      simpa [List.length_eq_zero] using h
    simp [NewSchedule, bufferedRevTracks_eq, bufferedRevArtwork_eq, hlen, h']
  · subst hN; subst hM
    refine ⟨?_, ?_, ?_, ?_, ?_⟩
    · simp [NewSchedule, bufferedRevTracks_eq, bufferedRevArtwork_eq, hN0, hM0]
    · simp [List.length_take]
    · simp [List.length_take]
    · intro t ht
      have ht' := List.mem_of_mem_take ht
      rw [List.mem_reverse] at ht'
      have := List.mem_filter.mp ht'
      exact ⟨by simpa using this.2, this.1⟩
    · intro a ha
      have ha' := List.mem_of_mem_take ha
      rw [List.mem_reverse] at ha'
      have := List.mem_filter.mp ha'
      exact ⟨by simpa using this.2, this.1⟩

/-- Witness for C5: two Buffered tracks and one Buffered artwork yield
exactly one pair, built from the most recently added track; an
all-Scheduled track collection yields the no-buffered-track error. -/
theorem c5_NewSchedule_witness :
    NewSchedule ⟨[⟨"t1", "b", [], "", "/t1", Buffered⟩,
        ⟨"t2", "b", [], "", "/t2", Buffered⟩],
      [⟨"a", "/a", Buffered⟩], [], [], []⟩ =
      .ok ⟨[⟨"t2", "b", [], "", "/t2", Buffered⟩], [⟨"a", "/a", Buffered⟩], 1⟩ ∧
    NewSchedule ⟨[⟨"t1", "b", [], "", "/t1", Scheduled⟩], [], [], [], []⟩ =
      .error Err_NoBufferedTrack := by
  constructor
  · have h := (c5_NewSchedule ⟨[⟨"t1", "b", [], "", "/t1", Buffered⟩,
        ⟨"t2", "b", [], "", "/t2", Buffered⟩],
      [⟨"a", "/a", Buffered⟩], [], [], []⟩).2.2 2 1 (by decide) (by decide)
      (by decide) (by decide)
    simpa using h.1
  · exact (c5_NewSchedule ⟨[⟨"t1", "b", [], "", "/t1", Scheduled⟩], [], [], [],
      []⟩).1 (by decide)

/-- C7: across a scheduling batch of `count` videos, the video at
position `k` (0-based, append order) is assigned publish time equal to
the computed slot `scheduleTime(startTime, k+1)` when that slot is
strictly after `now`, and `now` otherwise; the assignment is total (a
time is produced for every position, never an error). -/
theorem c7_renderAll_publish_times (us f st now count k : Nat) (h : k < count) :
    (renderAllTimes us f st now count).get? k =
      some (if now < scheduleTime us f st (k + 1)
        then scheduleTime us f st (k + 1) else now) ∧
    (¬ now < scheduleTime us f st (k + 1) →
      (renderAllTimes us f st now count).get? k = some now) ∧
    (now < scheduleTime us f st (k + 1) →
      (renderAllTimes us f st now count).get? k =
        some (scheduleTime us f st (k + 1))) ∧
    (renderAllTimes us f st now count).length = count := by
  have hget := renderTimesFrom_get us f st now count count k (Nat.le_refl _) h
  have harith : count - count + 1 + k = k + 1 := by omega
  rw [harith] at hget
  have hmain : (renderAllTimes us f st now count).get? k =
      some (if now < scheduleTime us f st (k + 1)
        then scheduleTime us f st (k + 1) else now) := by
    rw [renderAllTimes, hget]
    simp [assignPublishAt, timeAfter]
  refine ⟨hmain, fun hc => ?_, fun hc => ?_,
    renderTimesFrom_length us f st now count count⟩
  · rw [hmain, if_neg hc]
  · rw [hmain, if_pos hc]

/-- Witness for C7 at a concrete configuration: upload time 43200s
(12:00:00 UTC), frequency 1 day, start at second 0, `now = 150000` so
that the first slot (129600) is overdue and collapses to `now` while
the second slot (216000) is in the future and is kept. -/
theorem c7_renderAll_publish_times_witness :
    (renderAllTimes 43200 1 0 150000 2).get? 0 = some 150000 ∧
    (renderAllTimes 43200 1 0 150000 2).get? 1 = some 216000 := by
  constructor
  · exact (c7_renderAll_publish_times 43200 1 0 150000 2 0 (by decide)).2.1
      (by decide)
  · exact (c7_renderAll_publish_times 43200 1 0 150000 2 1 (by decide)).2.2.1
      (by decide)

/-! Lemmas for the insertion loops. -/

theorem addTrackLoop_no_match (track : Track) (l : List Track)
    (h : ∀ t ∈ l, t.UniqueId ≠ track.UniqueId) :
    addTrackLoop track l = .ok (l ++ [track]) := by
  induction l with
  | nil => rfl
  | cons t rest ih =>
    have ht : t.UniqueId ≠ track.UniqueId := h t (by simp)
    simp [addTrackLoop, ht, ih fun x hx => h x (by simp [hx]), Except.map]

theorem addTrackLoop_match (track t0 : Track) (pre post : List Track)
    (hpre : ∀ t ∈ pre, t.UniqueId ≠ track.UniqueId)
    (h0 : t0.UniqueId = track.UniqueId) :
    addTrackLoop track (pre ++ t0 :: post) =
      if t0.State ≠ track.State ∧ t0.State ≠ Removed then
        .error (Err_ImmutableResource "music")
      else .ok (pre ++ track :: post) := by
  induction pre with
  | nil =>
    rw [List.nil_append, addTrackLoop, if_pos h0]
    split <;> simp
  | cons t rest ih =>
    have ht : t.UniqueId ≠ track.UniqueId := hpre t (by simp)
    rw [List.cons_append, addTrackLoop, if_neg ht,
      ih fun x hx => hpre x (by simp [hx])]
    split <;> rfl

theorem addArtworkLoop_no_match (artwork : Artwork) (l : List Artwork)
    (h : ∀ a ∈ l, a.UniqueId ≠ artwork.UniqueId) :
    addArtworkLoop artwork l = .ok (l ++ [artwork]) := by
  induction l with
  | nil => rfl
  | cons a rest ih =>
    have ha : a.UniqueId ≠ artwork.UniqueId := h a (by simp)
    simp [addArtworkLoop, ha, ih fun x hx => h x (by simp [hx]), Except.map]

theorem addArtworkLoop_match (artwork a0 : Artwork) (pre post : List Artwork)
    (hpre : ∀ a ∈ pre, a.UniqueId ≠ artwork.UniqueId)
    (h0 : a0.UniqueId = artwork.UniqueId) :
    addArtworkLoop artwork (pre ++ a0 :: post) =
      if a0.State ≠ artwork.State ∧ a0.State ≠ Removed then
        .error (Err_ImmutableResource "art")
      else .ok (pre ++ artwork :: post) := by
  induction pre with
  | nil =>
    rw [List.nil_append, addArtworkLoop, if_pos h0]
    split <;> simp
  | cons a rest ih =>
    have ha : a.UniqueId ≠ artwork.UniqueId := hpre a (by simp)
    rw [List.cons_append, addArtworkLoop, if_neg ha,
      ih fun x hx => hpre x (by simp [hx])]
    split <;> rfl

theorem UpdateIndexes_Tracks (c : Collections) :
    (UpdateIndexes c).Tracks = c.Tracks := rfl

theorem UpdateIndexes_Artwork (c : Collections) :
    (UpdateIndexes c).Artwork = c.Artwork := rfl

theorem Find_fst_Tracks (c : Collections) (id : String) :
    (Find c id).1.Tracks = c.Tracks := by
  rw [Find]; split <;> rfl

theorem Find_fst_Artwork (c : Collections) (id : String) :
    (Find c id).1.Artwork = c.Artwork := by
  rw [Find]; split <;> rfl

theorem updateArtists_Tracks (l : List String) :
    ∀ c : Collections, (updateArtists c l).Tracks = c.Tracks := by
  induction l with
  | nil => intro c; rfl
  | cons a rest ih =>
    intro c
    rw [updateArtists]
    split
    · exact Find_fst_Tracks c (strToLower a)
    · rw [ih]; exact Find_fst_Tracks c (strToLower a)

theorem updateArtists_Artwork (l : List String) :
    ∀ c : Collections, (updateArtists c l).Artwork = c.Artwork := by
  induction l with
  | nil => intro c; rfl
  | cons a rest ih =>
    intro c
    rw [updateArtists]
    split
    · exact Find_fst_Artwork c (strToLower a)
    · rw [ih]; exact Find_fst_Artwork c (strToLower a)

/-- C6: insertion semantics of `AddTrack`/`AddArtwork`.  When the
collection holds an entity with the new entity's unique id (first
match, with no earlier match), the insertion fails with the
immutable-resource error exactly when the held entity's state differs
from the new one's and is not Removed — and an error return models the
`userError` process exit, so no changed collection escapes; when the
states agree or the held state is Removed, the new entity replaces the
old one at the same slot, preserving order; with no held entity of that
id, the new entity is appended at the end. -/
theorem c6_add_replacement (c : Collections) (track : Track)
    (artwork : Artwork) :
    ((∀ t ∈ c.Tracks, t.UniqueId ≠ track.UniqueId) →
      ∃ c', AddTrack c track = .ok c' ∧ c'.Tracks = c.Tracks ++ [track]) ∧
    (∀ pre t0 post, c.Tracks = pre ++ t0 :: post →
      t0.UniqueId = track.UniqueId →
      (∀ t ∈ pre, t.UniqueId ≠ track.UniqueId) →
      ((t0.State ≠ track.State ∧ t0.State ≠ Removed) →
        AddTrack c track = .error (Err_ImmutableResource "music")) ∧
      ((t0.State = track.State ∨ t0.State = Removed) →
        ∃ c', AddTrack c track = .ok c' ∧ c'.Tracks = pre ++ track :: post)) ∧
    ((∀ a ∈ c.Artwork, a.UniqueId ≠ artwork.UniqueId) →
      ∃ c', AddArtwork c artwork = .ok c' ∧
        c'.Artwork = c.Artwork ++ [artwork]) ∧
    (∀ pre a0 post, c.Artwork = pre ++ a0 :: post →
      a0.UniqueId = artwork.UniqueId →
      (∀ a ∈ pre, a.UniqueId ≠ artwork.UniqueId) →
      ((a0.State ≠ artwork.State ∧ a0.State ≠ Removed) →
        AddArtwork c artwork = .error (Err_ImmutableResource "art")) ∧
      ((a0.State = artwork.State ∨ a0.State = Removed) →
        ∃ c', AddArtwork c artwork = .ok c' ∧
          c'.Artwork = pre ++ artwork :: post)) := by
  refine ⟨fun h => ?_, fun pre t0 post hsplit h0 hpre => ?_, fun h => ?_,
    fun pre a0 post hsplit h0 hpre => ?_⟩
  · have hT := updateArtists_Tracks track.Artists c
    have h' : ∀ t ∈ (updateArtists c track.Artists).Tracks,
        t.UniqueId ≠ track.UniqueId := by rw [hT]; exact h
    rw [AddTrack, addTrackLoop_no_match track _ h']
    exact ⟨_, rfl, by simp [hT]⟩
  · have hloop := addTrackLoop_match track t0 pre post hpre h0
    have hsplit' : (updateArtists c track.Artists).Tracks = pre ++ t0 :: post := by
      rw [updateArtists_Tracks]; exact hsplit
    constructor
    · intro hcond
      rw [AddTrack, hsplit', hloop, if_pos hcond]
      rfl
    · intro hcond
      have hcond' : ¬(t0.State ≠ track.State ∧ t0.State ≠ Removed) := by
        rcases hcond with h1 | h1 <;> simp [h1]
      rw [AddTrack, hsplit', hloop, if_neg hcond']
      exact ⟨_, rfl, rfl⟩
  · have hA := updateArtists_Artwork [artwork.Artist] c
    have h' : ∀ a ∈ (updateArtists c [artwork.Artist]).Artwork,
        a.UniqueId ≠ artwork.UniqueId := by rw [hA]; exact h
    rw [AddArtwork, addArtworkLoop_no_match artwork _ h']
    exact ⟨_, rfl, by simp [hA]⟩
  · have hloop := addArtworkLoop_match artwork a0 pre post hpre h0
    have hsplit' : (updateArtists c [artwork.Artist]).Artwork =
        pre ++ a0 :: post := by
      rw [updateArtists_Artwork]; exact hsplit
    constructor
    · intro hcond
      rw [AddArtwork, hsplit', hloop, if_pos hcond]
      rfl
    · intro hcond
      have hcond' : ¬(a0.State ≠ artwork.State ∧ a0.State ≠ Removed) := by
        rcases hcond with h1 | h1 <;> simp [h1]
      rw [AddArtwork, hsplit', hloop, if_neg hcond']
      exact ⟨_, rfl, rfl⟩

/-- Witness for C6: re-adding a Buffered artwork over its Scheduled
version fails with the immutable-resource error, while re-adding over
a Removed version replaces it in place. -/
theorem c6_add_replacement_witness :
    AddArtwork ⟨[], [⟨"x", "/a", Scheduled⟩], [], [⟨"x", []⟩],
        [("/a", .artwork ⟨"x", "/a", Scheduled⟩), ("x", .artist ⟨"x", []⟩)]⟩
      ⟨"x", "/a", Buffered⟩ = .error (Err_ImmutableResource "art") ∧
    (∃ c', AddArtwork ⟨[], [⟨"x", "/a", Removed⟩], [], [⟨"x", []⟩],
        [("/a", .artwork ⟨"x", "/a", Removed⟩), ("x", .artist ⟨"x", []⟩)]⟩
      ⟨"x", "/a", Buffered⟩ = .ok c' ∧
      c'.Artwork = [⟨"x", "/a", Buffered⟩]) := by
  constructor
  · exact ((c6_add_replacement ⟨[], [⟨"x", "/a", Scheduled⟩], [], [⟨"x", []⟩],
      [("/a", .artwork ⟨"x", "/a", Scheduled⟩), ("x", .artist ⟨"x", []⟩)]⟩
      ⟨"t", "b", [], "", "/t", Buffered⟩ ⟨"x", "/a", Buffered⟩).2.2.2
      [] ⟨"x", "/a", Scheduled⟩ [] rfl rfl (by simp)).1 (by decide)
  · have h := ((c6_add_replacement ⟨[], [⟨"x", "/a", Removed⟩], [], [⟨"x", []⟩],
      [("/a", .artwork ⟨"x", "/a", Removed⟩), ("x", .artist ⟨"x", []⟩)]⟩
      ⟨"t", "b", [], "", "/t", Buffered⟩ ⟨"x", "/a", Buffered⟩).2.2.2
      [] ⟨"x", "/a", Removed⟩ [] rfl rfl (by simp)).2 (Or.inr rfl)
    simpa using h

/-! Key-set lemmas for the index map. -/

theorem mapInsert_keys_self (m : List (String × Entity)) (k : String)
    (v : Entity) : k ∈ (mapInsert m k v).map Prod.fst := by
  rw [mapInsert]
  split
  · rename_i h
    simp only [List.any_eq_true] at h
    obtain ⟨p, hp, hpk⟩ := h
    refine List.mem_map.mpr ⟨if p.1 = k then (k, v) else p,
      List.mem_map.mpr ⟨p, hp, rfl⟩, ?_⟩
    simp [beq_iff_eq.mp hpk]
  · simp

theorem mapInsert_keys_mono (m : List (String × Entity)) (k k' : String)
    (v : Entity) (h : k' ∈ m.map Prod.fst) :
    k' ∈ (mapInsert m k v).map Prod.fst := by
  rw [mapInsert]
  split
  · obtain ⟨p, hp, rfl⟩ := List.mem_map.mp h
    by_cases hpk : p.1 = k
    · exact List.mem_map.mpr ⟨(k, v),
        List.mem_map.mpr ⟨p, hp, by simp [hpk]⟩, hpk.symm⟩
    · exact List.mem_map.mpr ⟨p, List.mem_map.mpr ⟨p, hp, by simp [hpk]⟩, rfl⟩
  · simp only [List.map_append, List.mem_append]
    exact Or.inl h

theorem foldl_mapInsert_keys {α : Type} (uid : α → String) (ent : α → Entity) :
    ∀ (l : List α) (m : List (String × Entity)),
      (∀ k ∈ m.map Prod.fst,
        k ∈ (l.foldl (fun m x => mapInsert m (uid x) (ent x)) m).map Prod.fst) ∧
      (∀ x ∈ l,
        uid x ∈ (l.foldl (fun m x => mapInsert m (uid x) (ent x)) m).map
          Prod.fst) := by
  intro l
  induction l with
  | nil => exact fun m => ⟨fun k hk => hk, by simp⟩
  | cons x rest ih =>
    intro m
    refine ⟨fun k hk => ?_, fun y hy => ?_⟩
    · exact (ih _).1 k (mapInsert_keys_mono m (uid x) k (ent x) hk)
    · rcases List.mem_cons.mp hy with rfl | hy'
      · exact (ih _).1 (uid y) (mapInsert_keys_self m (uid y) (ent y))
      · exact (ih _).2 y hy'

theorem UpdateIndexes_keys (c : Collections) :
    (∀ k ∈ c.Indexes.map Prod.fst,
      k ∈ (UpdateIndexes c).Indexes.map Prod.fst) ∧
    (∀ t ∈ c.Tracks, t.UniqueId ∈ (UpdateIndexes c).Indexes.map Prod.fst) ∧
    (∀ a ∈ c.Artwork, a.UniqueId ∈ (UpdateIndexes c).Indexes.map Prod.fst) ∧
    (∀ v ∈ c.Schedule, v.UniqueId ∈ (UpdateIndexes c).Indexes.map Prod.fst) ∧
    (∀ a ∈ c.Artists, a.UniqueId ∈ (UpdateIndexes c).Indexes.map Prod.fst) := by
  have hT := foldl_mapInsert_keys (fun t : Track => t.UniqueId)
    (fun t => Entity.track t) c.Tracks c.Indexes
  have hA := foldl_mapInsert_keys (fun a : Artwork => a.UniqueId)
    (fun a => Entity.artwork a)
    c.Artwork
    (c.Tracks.foldl (fun m t => mapInsert m t.UniqueId (.track t)) c.Indexes)
  have hV := foldl_mapInsert_keys (fun v : Video => v.UniqueId)
    (fun v => Entity.video v)
    c.Schedule
    (c.Artwork.foldl (fun m a => mapInsert m a.UniqueId (.artwork a))
      (c.Tracks.foldl (fun m t => mapInsert m t.UniqueId (.track t)) c.Indexes))
  have hR := foldl_mapInsert_keys (fun a : Artist => a.UniqueId)
    (fun a => Entity.artist a)
    c.Artists
    (c.Schedule.foldl (fun m v => mapInsert m v.UniqueId (.video v))
      (c.Artwork.foldl (fun m a => mapInsert m a.UniqueId (.artwork a))
        (c.Tracks.foldl (fun m t => mapInsert m t.UniqueId (.track t))
          c.Indexes)))
  refine ⟨fun k hk => ?_, fun t ht => ?_, fun a ha => ?_, fun v hv => ?_,
    fun a ha => ?_⟩
  · exact hR.1 k (hV.1 k (hA.1 k (hT.1 k hk)))
  · exact hR.1 _ (hV.1 _ (hA.1 _ (hT.2 t ht)))
  · exact hR.1 _ (hV.1 _ (hA.2 a ha))
  · exact hR.1 _ (hV.2 v hv)
  · exact hR.2 a ha

/-- C4 (amended): when `Find` detects that the aggregate collection size
differs from the index size it repopulates the index by re-inserting
every entity of the four collections keyed by its unique id — but it
does not clear the map first, so immediately after the rebuild the
index's key set contains the unique id of every entity currently
present in the four collections together with every key that was
already in the index before, including keys whose entities were
truncated away. -/
theorem c4_find_rebuild_keys (c : Collections) (id : String)
    (h : collectionsSum c ≠ c.Indexes.length) :
    (∀ t ∈ c.Tracks, t.UniqueId ∈ (Find c id).1.Indexes.map Prod.fst) ∧
    (∀ a ∈ c.Artwork, a.UniqueId ∈ (Find c id).1.Indexes.map Prod.fst) ∧
    (∀ v ∈ c.Schedule, v.UniqueId ∈ (Find c id).1.Indexes.map Prod.fst) ∧
    (∀ a ∈ c.Artists, a.UniqueId ∈ (Find c id).1.Indexes.map Prod.fst) ∧
    (∀ k ∈ c.Indexes.map Prod.fst, k ∈ (Find c id).1.Indexes.map Prod.fst) := by
  have hfind : (Find c id).1 = UpdateIndexes c := by
    rw [Find, if_pos h]
  rw [hfind]
  have hk := UpdateIndexes_keys c
  exact ⟨hk.2.1, hk.2.2.1, hk.2.2.2.1, hk.2.2.2.2, hk.1⟩

/-- Counterexample for C4: a collections state left by truncating away
the track at `/t2` (its key is still indexed).  The size mismatch
triggers a rebuild, yet afterwards the index still has key `/t2` — its
key set is not equal to the set of present unique ids — and `Find`
still returns the truncated entity. -/
theorem c4_counterexample :
    collectionsSum ⟨[⟨"t1", "", [], "", "/t1", Buffered⟩], [], [], [],
        [("/t1", .track ⟨"t1", "", [], "", "/t1", Buffered⟩),
         ("/t2", .track ⟨"t2", "", [], "", "/t2", Buffered⟩)]⟩ ≠
      (⟨[⟨"t1", "", [], "", "/t1", Buffered⟩], [], [], [],
        [("/t1", .track ⟨"t1", "", [], "", "/t1", Buffered⟩),
         ("/t2", .track ⟨"t2", "", [], "", "/t2", Buffered⟩)]⟩ :
        Collections).Indexes.length ∧
    ((Find ⟨[⟨"t1", "", [], "", "/t1", Buffered⟩], [], [], [],
        [("/t1", .track ⟨"t1", "", [], "", "/t1", Buffered⟩),
         ("/t2", .track ⟨"t2", "", [], "", "/t2", Buffered⟩)]⟩
      "/t2").1.Indexes.map Prod.fst) = ["/t1", "/t2"] ∧
    (⟨[⟨"t1", "", [], "", "/t1", Buffered⟩], [], [], [],
        [("/t1", .track ⟨"t1", "", [], "", "/t1", Buffered⟩),
         ("/t2", .track ⟨"t2", "", [], "", "/t2", Buffered⟩)]⟩ :
      Collections).Tracks.map (fun t => t.UniqueId) = ["/t1"] ∧
    (Find ⟨[⟨"t1", "", [], "", "/t1", Buffered⟩], [], [], [],
        [("/t1", .track ⟨"t1", "", [], "", "/t1", Buffered⟩),
         ("/t2", .track ⟨"t2", "", [], "", "/t2", Buffered⟩)]⟩
      "/t2").2 = some (.track ⟨"t2", "", [], "", "/t2", Buffered⟩) := by
  refine ⟨by decide, by decide, by decide, by decide⟩

/-- Witness for C4 (amended) at the same concrete state: the size
mismatch holds and the present track's id `/t1` is a key after the
rebuild. -/
theorem c4_find_rebuild_keys_witness :
    Track.UniqueId ⟨"t1", "", [], "", "/t1", Buffered⟩ ∈
      (Find ⟨[⟨"t1", "", [], "", "/t1", Buffered⟩], [], [], [],
        [("/t1", .track ⟨"t1", "", [], "", "/t1", Buffered⟩),
         ("/t2", .track ⟨"t2", "", [], "", "/t2", Buffered⟩)]⟩
        "/t2").1.Indexes.map Prod.fst :=
  (c4_find_rebuild_keys ⟨[⟨"t1", "", [], "", "/t1", Buffered⟩], [], [], [],
      [("/t1", .track ⟨"t1", "", [], "", "/t1", Buffered⟩),
       ("/t2", .track ⟨"t2", "", [], "", "/t2", Buffered⟩)]⟩
    "/t2" (by decide)).1 ⟨"t1", "", [], "", "/t1", Buffered⟩ (by decide)

/-- C1 is violated by the code: `updateArtists` executes `return`
instead of `continue` when an artist is already present, so the
remaining identifiers of a multi-artist track are skipped.  Adding a
track listing artists `A` (already present) and `B` (absent) succeeds
with `B` never auto-created: the artist collection still holds only the
id `a`, while the track demands ids `a` and `b`. -/
theorem c1_addTrack_skips_later_artists :
    (AddTrack ⟨[], [], [], [⟨"A", []⟩], [("a", .artist ⟨"A", []⟩)]⟩
        ⟨"t", "A", ["A", "B"], "", "/p", Buffered⟩).map
      (fun c => c.Artists.map fun a => a.UniqueId) = .ok ["a"] ∧
    (⟨"t", "A", ["A", "B"], "", "/p", Buffered⟩ : Track).Artists.map
      strToLower = ["a", "b"] := by
  exact ⟨rfl, by decide⟩

set_option maxRecDepth 8000

/-- C2 is violated by the code: despite the comment "Most recent videos
are at the end of the collection", the loop of `latestScheduledTime`
visits indices `count-1, ..., 1` with `count = min 256 len`, i.e. the
oldest end.  On a 257-entry schedule whose first 256 entries publish at
100 and whose newest entry publishes at 1000, it returns 100, while the
latest `PublishAt` among the most recent 256 entries is 1000. -/
theorem c2_latestScheduledTime_scans_oldest_window :
    latestScheduledTime cBig257 0 = some (100, true) ∧
    (∃ v ∈ cBig257.Schedule.drop (cBig257.Schedule.length - 256),
      v.PublishAt = some 1000) := by
  have hrep256 : List.replicate 256 vOld257 = vOld257 :: List.replicate 255 vOld257 := by
    rw [show (256 : Nat) = 255 + 1 from rfl, List.replicate_succ]
  constructor
  · have hstable :
        latestLoop cBig257.Schedule ((List.range' 1 255).reverse) 100 =
          some 100 := by
      apply latestLoop_stable
      intro i hi
      rw [List.mem_reverse, List.mem_range'_1] at hi
      refine ⟨vOld257, ?_, 100, rfl, Nat.le_refl _⟩
      show (List.replicate 256 vOld257 ++ [vNew257]).get? i = some vOld257
      have hilt : i < (List.replicate 256 vOld257).length := by
        rw [List.length_replicate]; omega
      rw [get?_append_left' _ _ i hilt]
      exact replicate_get? vOld257 256 i (by omega)
    show (latestLoop cBig257.Schedule ((List.range' 1 (256 - 1)).reverse)
        100).map (fun t => (t, true)) = some (100, true)
    rw [show (256 - 1 : Nat) = 255 from rfl, hstable]
    rfl
  · refine ⟨vNew257, ?_, rfl⟩
    show vNew257 ∈ (List.replicate 256 vOld257 ++ [vNew257]).drop
      ((List.replicate 256 vOld257 ++ [vNew257]).length - 256)
    have hlen : (List.replicate 256 vOld257 ++ [vNew257]).length - 256 = 1 := by
      rw [List.length_append, List.length_replicate]
      rfl
    rw [hlen, hrep256]
    exact List.mem_append_right _ (by simp)

/-- C3 is violated by the code: `writeArtCredits` assigns the error of
`writeLinks` to `err` and then executes `return nil`, so an unresolved
key in the Link template applied to the artwork artist's links is
silently dropped.  With Link template `%(url)` (whose key resolves in
no substitution map, which binds only `link`), the link loop fails with
the offending key, yet `Desc` succeeds. -/
theorem c3_desc_drops_artwork_link_error :
    (Desc ⟨"", "", "Artwork by %(artist)", "%(artist)", "%(url)", ""⟩
        ⟨"T", "B", [], "", "/t", Buffered⟩ ⟨"a", "/a", Buffered⟩
        ⟨[], [], [], [⟨"a", ["l1"]⟩], [("a", .artist ⟨"a", ["l1"]⟩)]⟩).2 =
      .ok "Artwork by a\n" ∧
    buildTemplateS "%(url)" [("link", "l1")] =
      .err ("invalid key 'url' in '%(url)'".data) ∧
    (writeLinks ⟨"", "", "Artwork by %(artist)", "%(artist)", "%(url)", ""⟩
        ⟨[], [], [], [⟨"a", ["l1"]⟩], [("a", .artist ⟨"a", ["l1"]⟩)]⟩
        "Artwork by a\n" "a").2.2 =
      .err "invalid key 'url' in '%(url)'" := by
  exact ⟨by decide, by decide, by decide⟩

/-! Lemmas about the template scanner. -/

theorem indexByte_eq_none_of_not_mem (ch : Char) :
    ∀ l : List Char, ch ∉ l → indexByte ch l = none := by
  intro l
  induction l with
  | nil => intro _; rfl
  | cons a rest ih =>
    intro h
    have ha : ¬a = ch := fun he => h (he ▸ List.mem_cons_self a rest)
    rw [indexByte, if_neg ha, ih fun hm => h (List.mem_cons_of_mem a hm)]
    rfl

theorem not_mem_of_indexByte_eq_none (ch : Char) :
    ∀ l : List Char, indexByte ch l = none → ch ∉ l := by
  intro l
  induction l with
  | nil => intro _ hm; simp at hm
  | cons a rest ih =>
    intro h hm
    rw [indexByte] at h
    by_cases ha : a = ch
    · rw [if_pos ha] at h; exact Option.noConfusion h
    · rw [if_neg ha] at h
      rcases List.mem_cons.mp hm with he | hm'
      · exact ha he.symm
      · cases hr : indexByte ch rest with
        | none => exact ih hr hm'
        | some j => rw [hr] at h; exact Option.noConfusion h

theorem indexByte_some_spec (ch : Char) :
    ∀ (l : List Char) (j : Nat), indexByte ch l = some j →
      j < l.length ∧ l.get? j = some ch := by
  intro l
  induction l with
  | nil => intro j h; exact Option.noConfusion h
  | cons a rest ih =>
    intro j h
    rw [indexByte] at h
    by_cases ha : a = ch
    · rw [if_pos ha] at h
      cases h
      exact ⟨Nat.succ_pos _, by rw [ha]; rfl⟩
    · rw [if_neg ha] at h
      cases hr : indexByte ch rest with
      | none => rw [hr] at h; exact Option.noConfusion h
      | some j' =>
        rw [hr] at h
        cases h
        have := ih j' hr
        exact ⟨Nat.succ_lt_succ this.1, this.2⟩

theorem indexByte_append_self (ch : Char) :
    ∀ (k rest : List Char), ch ∉ k →
      indexByte ch (k ++ ch :: rest) = some k.length := by
  intro k
  induction k with
  | nil => intro rest _; rw [List.nil_append, indexByte, if_pos rfl]; rfl
  | cons a k' ih =>
    intro rest h
    have ha : ¬a = ch := fun he => h (he ▸ List.mem_cons_self a k')
    rw [List.cons_append, indexByte, if_neg ha,
      ih rest fun hm => h (List.mem_cons_of_mem a hm)]
    rfl

theorem mem_of_get?_eq_some {α : Type} (a : α) :
    ∀ (l : List α) (n : Nat), l.get? n = some a → a ∈ l := by
  intro l
  induction l with
  | nil => intro n h; exact Option.noConfusion h
  | cons x rest ih =>
    intro n h
    match n with
    | 0 => cases h; exact List.mem_cons_self _ _
    | m + 1 => exact List.mem_cons_of_mem x (ih m h)

theorem get?_append_right' {α : Type} :
    ∀ (l₁ l₂ : List α) (n : Nat), l₁.length ≤ n →
      (l₁ ++ l₂).get? n = l₂.get? (n - l₁.length) := by
  intro l₁
  induction l₁ with
  | nil => intro l₂ n _; rfl
  | cons x rest ih =>
    intro l₂ n h
    match n with
    | 0 => simp at h
    | m + 1 =>
      have : (x :: rest).length = rest.length + 1 := rfl
      rw [this, List.cons_append]
      show (rest ++ l₂).get? m = l₂.get? (m + 1 - (rest.length + 1))
      rw [ih l₂ m (by omega), Nat.succ_sub_succ]

theorem drop_append_le {α : Type} :
    ∀ (l₁ l₂ : List α) (n : Nat), n ≤ l₁.length →
      (l₁ ++ l₂).drop n = l₁.drop n ++ l₂ := by
  intro l₁
  induction l₁ with
  | nil =>
    intro l₂ n h
    have : n = 0 := by simpa using h
    rw [this]; rfl
  | cons x rest ih =>
    intro l₂ n h
    match n with
    | 0 => rfl
    | m + 1 => exact ih l₂ m (by simpa using Nat.lt_succ_iff.mp h)

/-- Position bound for the `')'` found while scanning past the prefix
`p3` of a remainder `p3 ++ '%' :: '(' :: rest` whose final `rest`
contains no `')'`: the `')'` lies inside `p3`. -/
theorem indexByte_close_lt (p3 rest : List Char) (j : Nat)
    (hidx : indexByte ')' (p3 ++ '%' :: '(' :: rest) = some j)
    (hrest : ')' ∉ rest) : j < p3.length := by
  have hspec := indexByte_some_spec ')' _ j hidx
  by_contra hge
  push_neg at hge
  have hget := hspec.2
  rw [get?_append_right' p3 _ j hge] at hget
  cases hd : j - p3.length with
  | zero =>
    rw [hd] at hget
    exact absurd (Option.some.inj hget) (by decide)
  | succ m =>
    cases m with
    | zero =>
      rw [hd] at hget
      exact absurd (Option.some.inj hget) (by decide)
    | succ d =>
      rw [hd] at hget
      exact hrest (mem_of_get?_eq_some ')' rest d hget)

/-! Step equations of the template scanner, one per branch of the Go
loop body, for a remaining input in explicit head form. -/

theorem btGo_nil (fmt : List Char) (t : List (List Char × List Char))
    (fuel : Nat) : btGo fmt t fuel [] = .ok [] := by
  cases fuel <;> rfl

theorem btGo_step_panic (fmt : List Char) (t : List (List Char × List Char))
    (fuel : Nat) (r3 : List Char) (hidx : indexByte ')' r3 = none) :
    btGo fmt t (fuel + 1) ('%' :: '(' :: r3) = .panicked := by
  rw [btGo, if_pos ⟨rfl, rfl⟩]
  simp only [List.tail_cons]
  rw [hidx]

theorem btGo_step_err (fmt : List Char) (t : List (List Char × List Char))
    (fuel : Nat) (r3 : List Char) (j : Nat)
    (hidx : indexByte ')' r3 = some j)
    (hkey : templateGet t (r3.take j) = none) :
    btGo fmt t (fuel + 1) ('%' :: '(' :: r3) =
      .err (btErrMsg (r3.take j) fmt) := by
  rw [btGo, if_pos ⟨rfl, rfl⟩]
  simp only [List.tail_cons]
  rw [hidx]
  simp only [hkey]

theorem btGo_step_sub (fmt : List Char) (t : List (List Char × List Char))
    (fuel : Nat) (r3 : List Char) (j : Nat) (v : List Char)
    (hidx : indexByte ')' r3 = some j)
    (hkey : templateGet t (r3.take j) = some v) :
    btGo fmt t (fuel + 1) ('%' :: '(' :: r3) =
      match btGo fmt t fuel (r3.drop (j + 1)) with
      | .ok s => .ok (v ++ s)
      | other => other := by
  rw [btGo, if_pos ⟨rfl, rfl⟩]
  simp only [List.tail_cons]
  rw [hidx]
  simp only [hkey]

theorem btGo_step_lit (fmt : List Char) (t : List (List Char × List Char))
    (fuel : Nat) (a : Char) (rest : List Char)
    (hc : ¬(a = '%' ∧ rest.head? = some '(')) :
    btGo fmt t (fuel + 1) (a :: rest) =
      match btGo fmt t fuel rest with
      | .ok s => .ok (a :: s)
      | other => other := by
  rw [btGo, if_neg hc]

theorem btFirstBad_step_panic (t : List (List Char × List Char))
    (fuel : Nat) (r3 : List Char) (hidx : indexByte ')' r3 = none) :
    btFirstBad t (fuel + 1) ('%' :: '(' :: r3) = none := by
  rw [btFirstBad, if_pos ⟨rfl, rfl⟩]
  simp only [List.tail_cons]
  rw [hidx]

theorem btFirstBad_step_err (t : List (List Char × List Char))
    (fuel : Nat) (r3 : List Char) (j : Nat)
    (hidx : indexByte ')' r3 = some j)
    (hkey : templateGet t (r3.take j) = none) :
    btFirstBad t (fuel + 1) ('%' :: '(' :: r3) = some (r3.take j) := by
  rw [btFirstBad, if_pos ⟨rfl, rfl⟩]
  simp only [List.tail_cons]
  rw [hidx]
  simp only [hkey]

theorem btFirstBad_step_sub (t : List (List Char × List Char))
    (fuel : Nat) (r3 : List Char) (j : Nat) (v : List Char)
    (hidx : indexByte ')' r3 = some j)
    (hkey : templateGet t (r3.take j) = some v) :
    btFirstBad t (fuel + 1) ('%' :: '(' :: r3) =
      btFirstBad t fuel (r3.drop (j + 1)) := by
  rw [btFirstBad, if_pos ⟨rfl, rfl⟩]
  simp only [List.tail_cons]
  rw [hidx]
  simp only [hkey]

theorem btFirstBad_step_lit (t : List (List Char × List Char))
    (fuel : Nat) (a : Char) (rest : List Char)
    (hc : ¬(a = '%' ∧ rest.head? = some '(')) :
    btFirstBad t (fuel + 1) (a :: rest) = btFirstBad t fuel rest := by
  rw [btFirstBad, if_neg hc]

theorem btGo_err_of_firstBad (fmt : List Char)
    (t : List (List Char × List Char)) :
    ∀ (fuel : Nat) (rem k : List Char), btFirstBad t fuel rem = some k →
      btGo fmt t fuel rem = .err (btErrMsg k fmt) := by
  intro fuel
  induction fuel with
  | zero =>
    intro rem k h
    cases rem with
    | nil => exact Option.noConfusion h
    | cons a rest => exact Option.noConfusion h
  | succ n ih =>
    intro rem k h
    cases rem with
    | nil => exact Option.noConfusion h
    | cons a rest =>
      by_cases hc : a = '%' ∧ rest.head? = some '('
      · obtain ⟨ha, hh⟩ := hc
        subst ha
        cases rest with
        | nil => exact Option.noConfusion hh
        | cons b r3 =>
          have hb : b = '(' := Option.some.inj hh
          subst hb
          cases hidx : indexByte ')' r3 with
          | none =>
            rw [btFirstBad_step_panic t n r3 hidx] at h
            exact Option.noConfusion h
          | some j =>
            cases hkey : templateGet t (r3.take j) with
            | none =>
              rw [btFirstBad_step_err t n r3 j hidx hkey] at h
              cases h
              exact btGo_step_err fmt t n r3 j hidx hkey
            | some v =>
              rw [btFirstBad_step_sub t n r3 j v hidx hkey] at h
              rw [btGo_step_sub fmt t n r3 j v hidx hkey, ih _ k h]
      · rw [btFirstBad_step_lit t n a rest hc] at h
        rw [btGo_step_lit fmt t n a rest hc, ih _ k h]

theorem btGo_literal_percent (fmt : List Char)
    (t : List (List Char × List Char)) (fuel : Nat) (c : Char)
    (rest : List Char) (hc : c ≠ '(') :
    btGo fmt t (fuel + 1) ('%' :: c :: rest) =
      match btGo fmt t fuel (c :: rest) with
      | .ok s => .ok ('%' :: s)
      | other => other :=
  btGo_step_lit fmt t fuel '%' (c :: rest)
    fun hco => hc (Option.some.inj hco.2)

theorem btGo_percent_end (fmt : List Char)
    (t : List (List Char × List Char)) (fuel : Nat) :
    btGo fmt t (fuel + 1) ['%'] = .ok ['%'] := by
  rw [btGo_step_lit fmt t fuel '%' [] fun hco => Option.noConfusion hco.2,
    btGo_nil]

theorem btGo_unterminated_head (fmt : List Char)
    (t : List (List Char × List Char)) (fuel : Nat) (rest : List Char)
    (h : ')' ∉ rest) :
    btGo fmt t (fuel + 1) ('%' :: '(' :: rest) = .panicked :=
  btGo_step_panic fmt t fuel rest (indexByte_eq_none_of_not_mem ')' rest h)

theorem btGo_unterminated_no_ok (fmt : List Char)
    (t : List (List Char × List Char)) :
    ∀ (fuel : Nat) (rem p rest : List Char), rem.length ≤ fuel →
      rem = p ++ '%' :: '(' :: rest → ')' ∉ rest →
      ∀ s, btGo fmt t fuel rem ≠ .ok s := by
  intro fuel
  induction fuel with
  | zero =>
    intro rem p rest hfuel hrem _ s
    have := congrArg List.length hrem
    simp at this
    omega
  | succ n ih =>
    intro rem p rest hfuel hrem hclose s
    cases rem with
    | nil =>
      have := congrArg List.length hrem
      simp at this
      omega
    | cons a r2 =>
      have hlen2 : r2.length ≤ n := by
        have : (a :: r2).length = r2.length + 1 := rfl
        omega
      by_cases hc : a = '%' ∧ r2.head? = some '('
      · obtain ⟨ha, hh⟩ := hc
        subst ha
        cases r2 with
        | nil => exact Option.noConfusion hh
        | cons b r3 =>
          have hb : b = '(' := Option.some.inj hh
          subst hb
          cases hidx : indexByte ')' r3 with
          | none =>
            rw [btGo_step_panic fmt t n r3 hidx]
            simp
          | some j =>
            cases p with
            | nil =>
              rw [List.nil_append] at hrem
              have hr3 : r3 = rest :=
                ((List.cons.injEq _ _ _ _).mp
                  ((List.cons.injEq _ _ _ _).mp hrem).2).2
              subst hr3
              have := indexByte_some_spec ')' r3 j hidx
              exact absurd (mem_of_get?_eq_some ')' r3 j this.2) hclose
            | cons p0 p' =>
              rw [List.cons_append] at hrem
              have hr2 : ('(' : Char) :: r3 = p' ++ '%' :: '(' :: rest :=
                ((List.cons.injEq _ _ _ _).mp hrem).2
              cases p' with
              | nil =>
                rw [List.nil_append] at hr2
                exact absurd ((List.cons.injEq _ _ _ _).mp hr2).1 (by decide)
              | cons p1 p3 =>
                rw [List.cons_append] at hr2
                have hr3 : r3 = p3 ++ '%' :: '(' :: rest :=
                  ((List.cons.injEq _ _ _ _).mp hr2).2
                have hj : j < p3.length := by
                  rw [hr3] at hidx
                  exact indexByte_close_lt p3 rest j hidx hclose
                cases hkey : templateGet t (r3.take j) with
                | none =>
                  rw [btGo_step_err fmt t n r3 j hidx hkey]
                  simp
                | some v =>
                  rw [btGo_step_sub fmt t n r3 j v hidx hkey]
                  have hdrop : r3.drop (j + 1) =
                      p3.drop (j + 1) ++ '%' :: '(' :: rest := by
                    rw [hr3]
                    exact drop_append_le p3 _ (j + 1) (by omega)
                  have hlen3 : (r3.drop (j + 1)).length ≤ n := by
                    rw [List.length_drop]
                    have hl : (('(' : Char) :: r3).length = r3.length + 1 := rfl
                    omega
                  have hrec := ih (r3.drop (j + 1)) (p3.drop (j + 1)) rest
                    hlen3 hdrop hclose
                  cases hres : btGo fmt t n (r3.drop (j + 1)) with
                  | ok s' => exact absurd hres (hrec s')
                  | err e => simp [hres]
                  | panicked => simp [hres]
      · have hp : p ≠ [] := by
          rintro rfl
          rw [List.nil_append] at hrem
          have h1 : a = '%' := ((List.cons.injEq _ _ _ _).mp hrem).1
          have h2 : r2 = '(' :: rest := ((List.cons.injEq _ _ _ _).mp hrem).2
          exact hc ⟨h1, by rw [h2]; rfl⟩
        cases p with
        | nil => exact absurd rfl hp
        | cons p0 p' =>
          rw [List.cons_append] at hrem
          have hr2 : r2 = p' ++ '%' :: '(' :: rest :=
            ((List.cons.injEq _ _ _ _).mp hrem).2
          rw [btGo_step_lit fmt t n a r2 hc]
          have hrec := ih r2 p' rest hlen2 hr2 hclose
          cases hres : btGo fmt t n r2 with
          | ok s' => exact absurd hres (hrec s')
          | err e => simp [hres]
          | panicked => simp [hres]

theorem btGo_no_panic (fmt : List Char) (t : List (List Char × List Char)) :
    ∀ (fuel : Nat) (rem : List Char), rem.length ≤ fuel →
      (∀ p rest, rem = p ++ '%' :: '(' :: rest → ')' ∈ rest) →
      btGo fmt t fuel rem ≠ .panicked := by
  intro fuel
  induction fuel with
  | zero =>
    intro rem hfuel _
    cases rem with
    | nil => simp [btGo]
    | cons a r2 => simp at hfuel
  | succ n ih =>
    intro rem hfuel hterm
    cases rem with
    | nil => simp [btGo]
    | cons a r2 =>
      have hlen2 : r2.length ≤ n := by
        have : (a :: r2).length = r2.length + 1 := rfl
        omega
      by_cases hc : a = '%' ∧ r2.head? = some '('
      · obtain ⟨ha, hh⟩ := hc
        subst ha
        cases r2 with
        | nil => exact Option.noConfusion hh
        | cons b r3 =>
          have hb : b = '(' := Option.some.inj hh
          subst hb
          have hmem : ')' ∈ r3 := hterm [] r3 rfl
          cases hidx : indexByte ')' r3 with
          | none => exact absurd hmem (not_mem_of_indexByte_eq_none ')' r3 hidx)
          | some j =>
            cases hkey : templateGet t (r3.take j) with
            | none =>
              rw [btGo_step_err fmt t n r3 j hidx hkey]
              simp
            | some v =>
              rw [btGo_step_sub fmt t n r3 j v hidx hkey]
              have htransfer : ∀ p rest,
                  r3.drop (j + 1) = p ++ '%' :: '(' :: rest → ')' ∈ rest := by
                intro p rest hpr
                refine hterm ('%' :: '(' :: (r3.take (j + 1) ++ p)) rest ?_
                have hsplit : r3 = r3.take (j + 1) ++ r3.drop (j + 1) :=
                  (List.take_append_drop (j + 1) r3).symm
                calc '%' :: '(' :: r3
                    = '%' :: '(' :: (r3.take (j + 1) ++ r3.drop (j + 1)) := by
                      rw [← hsplit]
                  _ = '%' :: '(' ::
                      (r3.take (j + 1) ++ (p ++ '%' :: '(' :: rest)) := by
                      rw [hpr]
                  _ = ('%' :: '(' :: (r3.take (j + 1) ++ p)) ++
                      '%' :: '(' :: rest := by
                      simp [List.append_assoc]
              have hlen3 : (r3.drop (j + 1)).length ≤ n := by
                rw [List.length_drop]
                have hl : (('(' : Char) :: r3).length = r3.length + 1 := rfl
                omega
              have hrec := ih (r3.drop (j + 1)) hlen3 htransfer
              cases hres : btGo fmt t n (r3.drop (j + 1)) with
              | ok s' => simp [hres]
              | err e => simp [hres]
              | panicked => exact absurd hres hrec
      · rw [btGo_step_lit fmt t n a r2 hc]
        have htransfer : ∀ p rest, r2 = p ++ '%' :: '(' :: rest →
            ')' ∈ rest := fun p rest hpr =>
          hterm (a :: p) rest (by rw [hpr]; rfl)
        have hrec := ih r2 hlen2 htransfer
        cases hres : btGo fmt t n r2 with
        | ok s' => simp [hres]
        | err e => simp [hres]
        | panicked => exact absurd hres hrec

theorem take_append_self {α : Type} :
    ∀ (k rest : List α), (k ++ rest).take k.length = k := by
  intro k
  induction k with
  | nil => intro rest; rfl
  | cons x k' ih =>
    intro rest
    rw [List.cons_append]
    show x :: (k' ++ rest).take k'.length = x :: k'
    rw [ih rest]

theorem buildTemplate_single_key (k v : List Char) (hk : ')' ∉ k) :
    buildTemplate ('%' :: '(' :: (k ++ [')'])) [(k, v)] = .ok v := by
  rw [buildTemplate]
  rw [show ('%' :: '(' :: (k ++ [')'])).length = (k ++ [')']).length + 1 + 1
    from rfl]
  have hidx : indexByte ')' (k ++ [')']) = some k.length :=
    indexByte_append_self ')' k [] hk
  have hkey : templateGet [(k, v)] ((k ++ [')']).take k.length) = some v := by
    rw [take_append_self k [')'], templateGet, if_pos rfl]
  rw [btGo_step_sub _ _ _ _ k.length v hidx hkey]
  have hdrop : (k ++ [')']).drop (k.length + 1) = [] := by
    rw [show k.length + 1 = (k ++ [')']).length by simp, List.drop_length]
  rw [hdrop, btGo_nil]
  simp

/-- C8: template substitution semantics of `buildTemplate`.
1. `%(k)` under a map binding `k` to `v` (for a well-formed key, i.e.
   one containing no `')'`) substitutes to exactly `v`.
2. When the scan meets a key absent from the map (`firstUnresolved`),
   the result is the error message, which contains the exact key and
   the whole template string as contiguous segments.
3. A `'%'` not immediately followed by `'('` passes through literally,
   both mid-string and as the final character.
4. `%(a)c)` resolves key `a` and keeps the trailing `c)` literally. -/
theorem c8_buildTemplate_substitution :
    (∀ (k v : List Char), ')' ∉ k →
      buildTemplate ('%' :: '(' :: (k ++ [')'])) [(k, v)] = .ok v) ∧
    (∀ (fmt : List Char) (t : List (List Char × List Char)) (k : List Char),
      firstUnresolved fmt t = some k →
      buildTemplate fmt t = .err (btErrMsg k fmt) ∧
      (∃ l r, btErrMsg k fmt = l ++ k ++ r) ∧
      (∃ l r, btErrMsg k fmt = l ++ fmt ++ r)) ∧
    (∀ (fmt : List Char) (t : List (List Char × List Char)) (fuel : Nat)
        (c : Char) (rest : List Char), c ≠ '(' →
      btGo fmt t (fuel + 1) ('%' :: c :: rest) =
        match btGo fmt t fuel (c :: rest) with
        | .ok s => .ok ('%' :: s)
        | other => other) ∧
    (∀ (fmt : List Char) (t : List (List Char × List Char)) (fuel : Nat),
      btGo fmt t (fuel + 1) ['%'] = .ok ['%']) ∧
    buildTemplate "%(a)c)".data [("a".data, "v".data)] = .ok "vc)".data := by
  refine ⟨buildTemplate_single_key, ?_, btGo_literal_percent,
    btGo_percent_end, by decide⟩
  intro fmt t k h
  refine ⟨btGo_err_of_firstBad fmt t fmt.length fmt k h,
    ⟨"invalid key '".data, "' in '".data ++ fmt ++ "'".data,
      by simp [btErrMsg]⟩,
    ⟨"invalid key '".data ++ k ++ "' in '".data, "'".data,
      by simp [btErrMsg, List.append_assoc]⟩⟩

/-- Witness for C8 at concrete inputs: `%(k)` with binding `k ↦ v`
yields `v`; `%(x)` with an empty map errors with key and template;
`%a` keeps the `%` literal; a final `%` is literal. -/
theorem c8_buildTemplate_substitution_witness :
    buildTemplate ('%' :: '(' :: ("k".data ++ [')'])) [("k".data, "v".data)] =
      .ok "v".data ∧
    buildTemplate "%(x)".data [] = .err (btErrMsg "x".data "%(x)".data) ∧
    btGo "%a".data [] (0 + 1) ('%' :: 'a' :: []) =
      (match btGo "%a".data [] 0 ('a' :: []) with
        | .ok s => .ok ('%' :: s)
        | other => other) ∧
    btGo "%".data [] (0 + 1) ['%'] = .ok ['%'] := by
  have h := c8_buildTemplate_substitution
  exact ⟨h.1 "k".data "v".data (by decide),
    (h.2.1 "%(x)".data [] "x".data (by decide)).1,
    h.2.2.1 "%a".data [] 0 'a' [] (by decide),
    h.2.2.2.1 "%".data [] 0⟩

/-- Counterexample for C9: the template `%(x)%(abc` contains `%(` with
no `')'` anywhere after it, yet with an empty substitution map
`buildTemplate` does not panic — it fails first with the unresolved-key
error for the earlier placeholder `x`. -/
theorem c9_counterexample :
    buildTemplate "%(x)%(abc".data [] =
      .err ("invalid key 'x' in '%(x)%(abc'".data) ∧
    "%(x)%(abc".data = "%(x)".data ++ '%' :: '(' :: "abc".data ∧
    ')' ∉ "abc".data := by
  exact ⟨by decide, by decide, by decide⟩

/-- C9 (amended): a template containing `%(` with no `')'` anywhere
after it never substitutes successfully: when the unterminated `%(`
heads the template (e.g. `%(abc`) the scan panics through the
out-of-range slice (`IndexByte` returning `-1`) for every substitution
map, and in general the result is never `ok` (an earlier unresolved
placeholder may fail first with its key error); templates whose every
`%(` has a later `')'` never hit the panic branch. -/
theorem c9_unterminated_scan :
    (∀ (t : List (List Char × List Char)) (rest : List Char), ')' ∉ rest →
      buildTemplate ('%' :: '(' :: rest) t = .panicked) ∧
    (∀ (fmt : List Char) (t : List (List Char × List Char))
        (p rest : List Char),
      fmt = p ++ '%' :: '(' :: rest → ')' ∉ rest →
      ∀ s, buildTemplate fmt t ≠ .ok s) ∧
    (∀ (fmt : List Char) (t : List (List Char × List Char)),
      (∀ p rest, fmt = p ++ '%' :: '(' :: rest → ')' ∈ rest) →
      buildTemplate fmt t ≠ .panicked) := by
  refine ⟨fun t rest h => ?_, fun fmt t p rest hdec h s => ?_,
    fun fmt t h => ?_⟩
  · rw [buildTemplate]
    rw [show ('%' :: '(' :: rest).length = rest.length + 1 + 1 from rfl]
    exact btGo_unterminated_head _ t (rest.length + 1) rest h
  · exact btGo_unterminated_no_ok fmt t fmt.length fmt p rest
      (Nat.le_refl _) hdec h s
  · exact btGo_no_panic fmt t fmt.length fmt (Nat.le_refl _) h

/-- Witness for C9 (amended): `%(abc` panics; `%(x)%(abc` cannot
substitute successfully; `ab`, whose every `%(` occurrence (there is
none) is terminated, does not panic. -/
theorem c9_unterminated_scan_witness :
    buildTemplate ('%' :: '(' :: "abc".data) [] = .panicked ∧
    buildTemplate "%(x)%(abc".data [] ≠ .ok [] ∧
    buildTemplate "ab".data [] ≠ .panicked := by
  have h := c9_unterminated_scan
  refine ⟨h.1 [] "abc".data (by decide),
    h.2.1 "%(x)%(abc".data [] "%(x)".data "abc".data (by decide) (by decide)
      [],
    h.2.2 "ab".data [] ?_⟩
  intro p rest hpr
  exfalso
  have hlen := congrArg List.length hpr
  simp at hlen
  obtain ⟨hp, hr⟩ : p.length = 0 ∧ rest.length = 0 := by omega
  rw [List.length_eq_zero] at hp hr
  subst hp; subst hr
  exact absurd hpr (by decide)

end Autoyt
